import Mathlib

/-!
Formal model of the webchord note-lifecycle and timeline-scheduling engine.

The definitions below are shallow embeddings of:
* the `ChordButtons` component (button handlers, shared-note holder sets,
  arpeggiator sessions) from `src/unnamed/part_000`;
* the recording capture paths (`handleButtonDown`, `playNote`,
  `handleButtonUp`) and `PatternRecorder.savePattern` from
  `src/components/ControlPanel/ControlPanel.tsx`;
* the `Timeline` playback interval (the scheduler tick) from
  `src/components/ControlPanel/ControlPanel.tsx`.

Times are rationals (milliseconds); the JavaScript number arithmetic used by
the source is exact on the rational inputs considered here.  Engine calls are
reified as data so that theorems can count and order them.
-/

namespace Webchord

/-- Engine calls of the live voice pool.  Velocities are omitted: no claim
mentions them, and the arpeggiator jitters them with `Math.random`. -/
inductive EngineCall where
  | noteOn (midiNote : Nat)
  | noteOff (midiNote : Nat) (immediate : Bool)
deriving DecidableEq

/-! ### Arpeggiator note sequence (part_000, lines 176–231) -/

/-- Octave expansion of the held chord: `octaves` copies, each shifted up by
12 semitones per octave (part_000 lines 177–180). -/
def extendChord (chord : List Nat) (octaves : Nat) : List Nat :=
  (List.range octaves).foldl (fun acc oct => acc ++ chord.map (fun n => n + oct * 12)) []

inductive ArpPattern where
  | up
  | down
  | updown
  | random
deriving DecidableEq

/-- The precomputed arpeggio sequence (part_000 lines 183–191):
`down` reverses the expansion, `updown` is `up.slice(0,-1) ++ down.slice(0,-1)`;
`up` and `random` keep the expansion (random draws an index per step). -/
def arpNoteSeq (pattern : ArpPattern) (chord : List Nat) (octaves : Nat) : List Nat :=
  let e := extendChord chord octaves
  match pattern with
  | .down => e.reverse
  | .updown => e.dropLast ++ e.reverse.dropLast
  | _ => e

/-- The spec's wording for `updown`: the ascending run concatenated with its
reverse, with the duplicated top endpoint (the head of the reverse) and the
duplicated bottom endpoint (the last element of the reverse) each removed
once. -/
def specUpdown (e : List Nat) : List Nat :=
  e ++ ((e.reverse).drop 1).dropLast

/-- Pitch played at step `k` for a non-random pattern
(`arpNotes[currentNoteIndex % arpNotes.length]`, part_000 line 221). -/
def arpStepNote (notes : List Nat) (k : Nat) : Nat :=
  notes.getD (k % notes.length) 0

lemma updown_eq_specUpdown (e : List Nat) (h : 2 ≤ e.length) :
    e.dropLast ++ e.reverse.dropLast = specUpdown e := by
  match e, h with
  | x :: e', h =>
    have he' : e' ≠ [] := by
      intro hnil
      simp [hnil] at h
    obtain ⟨ys, a, rfl⟩ : ∃ ys a, e' = ys ++ [a] := by
      refine ⟨e'.dropLast, e'.getLast he', ?_⟩
      exact (List.dropLast_append_getLast he').symm
    have h1 : (x :: (ys ++ [a])).dropLast = x :: ys := by
      rw [show x :: (ys ++ [a]) = (x :: ys) ++ [a] by simp, List.dropLast_concat]
    have hrev : (x :: (ys ++ [a])).reverse = a :: (ys.reverse ++ [x]) := by simp
    have h2 : (a :: (ys.reverse ++ [x])).dropLast = a :: ys.reverse := by
      rw [show a :: (ys.reverse ++ [x]) = (a :: ys.reverse) ++ [x] by simp, List.dropLast_concat]
    have h3 : ((a :: (ys.reverse ++ [x])).drop 1).dropLast = ys.reverse := by
      simp [List.dropLast_concat]
    unfold specUpdown
    rw [hrev, h1, h2, h3]
    simp

/-- Claim C7: the arpeggiator's `updown` pattern produces the octave-expanded
ascending sequence concatenated with its reverse with both duplicated
endpoints removed; for chord `[60, 64, 67]` with `octaves = 1` the step
sequence cycles through `[60, 64, 67, 64]`. -/
theorem C7_updown_shape (chord : List Nat) (octaves : Nat)
    (h : 2 ≤ (extendChord chord octaves).length) :
    arpNoteSeq .updown chord octaves = specUpdown (extendChord chord octaves) ∧
    arpNoteSeq .updown [60, 64, 67] 1 = [60, 64, 67, 64] ∧
    ∀ k, arpStepNote (arpNoteSeq .updown [60, 64, 67] 1) (k + 4) =
      arpStepNote (arpNoteSeq .updown [60, 64, 67] 1) k := by
  refine ⟨updown_eq_specUpdown _ h, by decide, ?_⟩
  intro k
  have hseq : arpNoteSeq .updown [60, 64, 67] 1 = [60, 64, 67, 64] := by decide
  rw [hseq]
  simp [arpStepNote, Nat.add_mod_right]

theorem C7_witness :
    2 ≤ (extendChord [60, 64, 67] 1).length ∧
    arpNoteSeq .updown [60, 64, 67] 1 = specUpdown (extendChord [60, 64, 67] 1) :=
  ⟨by decide, (C7_updown_shape [60, 64, 67] 1 (by decide)).1⟩

/-! ### Voice ownership: shared-note holder sets (part_000, lines 100–118 and 363–377)

`globalMidiNotesRef : Map<midiNote, Set<buttonDegree>>` is modelled as a
function `Nat → List Nat`; the empty list stands for an absent entry.  This is
exact for the code's reachable states: every path that creates an entry adds a
degree in the same handler iteration, and every path that empties a set
deletes the entry immediately, so the map never holds an empty set. -/

/-- One chord-button component state: the three refs used by the handlers. -/
structure ChordState where
  activeButtons : List Nat
  activeNotes : Nat → List Nat
  holders : Nat → List Nat

def initialChordState : ChordState :=
  { activeButtons := [], activeNotes := fun _ => [], holders := fun _ => [] }

/-- Per-pitch trigger (part_000 lines 101–118): read the holding set (creating
it empty when absent), remember whether it was non-empty, add the degree, and
emit `noteOn` only when it was empty. -/
def triggerPitch (degree midiNote : Nat) (h : Nat → List Nat) :
    (Nat → List Nat) × List EngineCall :=
  let s := h midiNote
  let isAlreadyPlaying := s ≠ []
  (Function.update h midiNote (s.insert degree),
    if isAlreadyPlaying then [] else [EngineCall.noteOn midiNote])

/-- Per-pitch release (part_000 lines 363–377): when the entry exists, remove
the degree; if the set is now empty, emit `noteOff` and drop the entry. -/
def releasePitch (degree midiNote : Nat) (immediate : Bool) (h : Nat → List Nat) :
    (Nat → List Nat) × List EngineCall :=
  let s := h midiNote
  if s = [] then (h, [])
  else
    let s' := s.erase degree
    if s' = [] then (Function.update h midiNote [], [EngineCall.noteOff midiNote immediate])
    else (Function.update h midiNote s', [])

/-- `chord.forEach` of `triggerPitch`, calls emitted in chord order. -/
def trigRun (degree : Nat) (h : Nat → List Nat) :
    List Nat → (Nat → List Nat) × List EngineCall
  | [] => (h, [])
  | p :: rest =>
    let r := triggerPitch degree p h
    let r2 := trigRun degree r.1 rest
    (r2.1, r.2 ++ r2.2)

/-- `chord.forEach` of `releasePitch`, calls emitted in chord order. -/
def relRun (degree : Nat) (immediate : Bool) (h : Nat → List Nat) :
    List Nat → (Nat → List Nat) × List EngineCall
  | [] => (h, [])
  | p :: rest =>
    let r := releasePitch degree p immediate h
    let r2 := relRun degree immediate r.1 rest
    (r2.1, r.2 ++ r2.2)

/-- `handleButtonDown` in play mode, restricted to the engine-facing state
(part_000 lines 49–163; recording side effects are modelled separately). -/
def handleButtonDown (degree : Nat) (chord : List Nat) (st : ChordState) :
    ChordState × List EngineCall :=
  if degree ∈ st.activeButtons then (st, [])
  else
    let r := trigRun degree st.holders chord
    ({ activeButtons := degree :: st.activeButtons,
       activeNotes := Function.update st.activeNotes degree chord,
       holders := r.1 }, r.2)

/-- `handleButtonUp` (part_000 lines 326–422), restricted to the engine-facing
state.  `immediate` is the code's `currentMode !== 'play'`. -/
def handleButtonUp (degree : Nat) (immediate : Bool) (st : ChordState) :
    ChordState × List EngineCall :=
  if degree ∈ st.activeButtons then
    let chord := st.activeNotes degree
    let r := relRun degree immediate st.holders chord
    ({ activeButtons := st.activeButtons.erase degree,
       activeNotes := Function.update st.activeNotes degree [],
       holders := r.1 }, r.2)
  else (st, [])

/-- A play-mode input event: a button press with its generated chord, or a
button release. -/
inductive BEvent where
  | down (degree : Nat) (chord : List Nat)
  | up (degree : Nat)

def stepB (st : ChordState) : BEvent → ChordState × List EngineCall
  | .down d chord => handleButtonDown d chord st
  | .up d => handleButtonUp d false st

def runB (st : ChordState) : List BEvent → ChordState × List EngineCall
  | [] => (st, [])
  | e :: es =>
    let r := stepB st e
    let r2 := runB r.1 es
    (r2.1, r.2 ++ r2.2)

/-- Number of engine `noteOn` calls for pitch `P` in a call list. -/
def countOn (P : Nat) (cs : List EngineCall) : Nat :=
  (cs.filter (fun c => c = EngineCall.noteOn P)).length

/-- Number of engine `noteOff` calls for pitch `P` in a call list (any
`immediate` flag). -/
def countOff (P : Nat) (cs : List EngineCall) : Nat :=
  (cs.filter (fun c =>
    match c with
    | EngineCall.noteOff q _ => q = P
    | _ => false)).length

lemma countOn_append (P : Nat) (a b : List EngineCall) :
    countOn P (a ++ b) = countOn P a + countOn P b := by
  simp [countOn]

lemma countOff_append (P : Nat) (a b : List EngineCall) :
    countOff P (a ++ b) = countOff P a + countOff P b := by
  simp [countOff]

lemma insert_ne_nil (d : Nat) (s : List Nat) : s.insert d ≠ [] := by
  by_cases hd : d ∈ s
  · rw [List.insert_of_mem hd]
    exact List.ne_nil_of_mem hd
  · rw [List.insert_of_not_mem hd]
    exact List.cons_ne_nil d s

/-- Effect of one chord's `forEach` of `triggerPitch` on pitch `P`: the degree
is inserted into `P`'s holder set when `P` occurs in the chord, exactly one
`noteOn P` is emitted when that set was empty, and no `noteOff P` is ever
emitted. -/
lemma trigRun_spec (d P : Nat) :
    ∀ (chord : List Nat) (h : Nat → List Nat),
      (trigRun d h chord).1 P = (if P ∈ chord then (h P).insert d else h P) ∧
      countOn P (trigRun d h chord).2 = (if P ∈ chord ∧ h P = [] then 1 else 0) ∧
      countOff P (trigRun d h chord).2 = 0
  | [], h => by simp [trigRun, countOn, countOff]
  | p :: rest, h => by
    have ih := trigRun_spec d P rest (triggerPitch d p h).1
    simp only [trigRun, countOn_append, countOff_append]
    by_cases hpP : p = P
    · subst hpP
      have hup : (triggerPitch d p h).1 p = (h p).insert d := by
        simp [triggerPitch, Function.update_same]
      rw [ih.1, ih.2.1, ih.2.2, hup]
      have hins : ((h p).insert d).insert d = (h p).insert d :=
        List.insert_of_mem (List.mem_insert_self d (h p))
      have hne : (h p).insert d ≠ [] := insert_ne_nil d (h p)
      by_cases hmem : p ∈ rest
      · simp only [hmem, if_true, List.mem_cons, true_or, if_true, hins, true_and]
        by_cases hnil : h p = []
        · simp [triggerPitch, hnil, countOn, countOff, hne]
        · simp [triggerPitch, hnil, countOn, countOff, hne]
      · simp only [hmem, if_false, List.mem_cons, true_or, if_true, true_and]
        by_cases hnil : h p = []
        · simp [triggerPitch, hnil, countOn, countOff, hne, hmem]
        · simp [triggerPitch, hnil, countOn, countOff, hne, hmem]
    · have hup : (triggerPitch d p h).1 P = h P := by
        simp [triggerPitch, Function.update_noteq (Ne.symm hpP)]
      have hcalls : countOn P (triggerPitch d p h).2 = 0 ∧
          countOff P (triggerPitch d p h).2 = 0 := by
        by_cases hnil : h p = []
        · simp [triggerPitch, hnil, countOn, countOff, hpP]
        · simp [triggerPitch, hnil, countOn, countOff]
      rw [ih.1, ih.2.1, ih.2.2, hup, hcalls.1, hcalls.2]
      have hmem : P ∈ p :: rest ↔ P ∈ rest := by
        simp [List.mem_cons, Ne.symm hpP]
      simp [hmem]

/-- Effect of one chord's `forEach` of `releasePitch` on pitch `P`: no
`noteOn P` is emitted, an empty holder set stays empty with no `noteOff P`,
and exactly one `noteOff P` is emitted iff the run empties a non-empty holder
set. -/
lemma relRun_spec (d P : Nat) (imm : Bool) :
    ∀ (chord : List Nat) (h : Nat → List Nat),
      countOn P (relRun d imm h chord).2 = 0 ∧
      (h P = [] → (relRun d imm h chord).1 P = []) ∧
      countOff P (relRun d imm h chord).2 =
        (if h P = [] then 0 else if (relRun d imm h chord).1 P = [] then 1 else 0)
  | [], h => by
    refine ⟨by simp [relRun, countOn], by simp [relRun], ?_⟩
    by_cases hnil : h P = [] <;> simp [relRun, countOff, hnil]
  | p :: rest, h => by
    simp only [relRun, countOn_append, countOff_append]
    by_cases hpP : p = P
    · subst hpP
      by_cases hnil : h p = []
      · have hstep : releasePitch d p imm h = (h, []) := by
          simp [releasePitch, hnil]
        have ih := relRun_spec d p imm rest h
        simp only [hstep]
        refine ⟨by simpa [countOn] using ih.1, fun _ => ih.2.1 hnil, ?_⟩
        simpa [countOff, hnil] using ih.2.2
      · by_cases herase : (h p).erase d = []
        · have hstep : releasePitch d p imm h =
              (Function.update h p [], [EngineCall.noteOff p imm]) := by
            simp [releasePitch, hnil, herase]
          have ih := relRun_spec d p imm rest (Function.update h p [])
          have hup : Function.update h p ([] : List Nat) p = [] := Function.update_same p [] h
          have hrest := ih.2.1 hup
          simp only [hstep]
          refine ⟨by simpa [countOn] using ih.1, fun hc => absurd hc hnil, ?_⟩
          have hoff : countOff p (relRun d imm (Function.update h p []) rest).2 = 0 := by
            rw [ih.2.2]
            simp [hup]
          rw [hoff]
          simp [countOff, hnil, hrest]
        · have hstep : releasePitch d p imm h =
              (Function.update h p ((h p).erase d), []) := by
            simp [releasePitch, hnil, herase]
          have ih := relRun_spec d p imm rest (Function.update h p ((h p).erase d))
          have hup : Function.update h p ((h p).erase d) p = (h p).erase d :=
            Function.update_same p _ h
          simp only [hstep]
          refine ⟨by simpa [countOn] using ih.1, fun hc => absurd hc hnil, ?_⟩
          rw [hup] at ih
          simpa [countOff, hnil, herase] using ih.2.2
    · have hs : (releasePitch d p imm h).1 P = h P := by
        by_cases hnil : h p = []
        · simp [releasePitch, hnil]
        · by_cases herase : (h p).erase d = []
          · simp [releasePitch, hnil, herase, Function.update_noteq (Ne.symm hpP)]
          · simp [releasePitch, hnil, herase, Function.update_noteq (Ne.symm hpP)]
      have hcalls : countOn P (releasePitch d p imm h).2 = 0 ∧
          countOff P (releasePitch d p imm h).2 = 0 := by
        by_cases hnil : h p = []
        · simp [releasePitch, hnil, countOn, countOff]
        · by_cases herase : (h p).erase d = []
          · simp [releasePitch, hnil, herase, countOn, countOff, hpP]
          · simp [releasePitch, hnil, herase, countOn, countOff]
      have ih := relRun_spec d P imm rest (releasePitch d p imm h).1
      rw [hs] at ih
      refine ⟨by rw [hcalls.1, ih.1], ih.2.1, ?_⟩
      rw [hcalls.2, ih.2.2]
      simp

/-- When `P`'s holder set has no duplicates, a release run for a chord
containing `P` removes exactly the releasing degree from it. -/
lemma relRun_holders (d P : Nat) (imm : Bool) :
    ∀ (chord : List Nat) (h : Nat → List Nat), (h P).Nodup →
      (relRun d imm h chord).1 P = (if P ∈ chord then (h P).erase d else h P)
  | [], h, _ => by simp [relRun]
  | p :: rest, h, hnd => by
    simp only [relRun]
    by_cases hpP : p = P
    · subst hpP
      by_cases hnil : h p = []
      · have hstep : releasePitch d p imm h = (h, []) := by
          simp [releasePitch, hnil]
        simp only [hstep, relRun_holders d p imm rest h hnd, hnil]
        simp
      · by_cases herase : (h p).erase d = []
        · have hstep : releasePitch d p imm h =
              (Function.update h p [], [EngineCall.noteOff p imm]) := by
            simp [releasePitch, hnil, herase]
          have hup : Function.update h p ([] : List Nat) p = [] := Function.update_same p [] h
          have hrec := relRun_holders d p imm rest (Function.update h p [])
            (by rw [hup]; exact List.nodup_nil)
          rw [hup] at hrec
          simp only [hstep, hrec, herase]
          simp
        · have hstep : releasePitch d p imm h =
              (Function.update h p ((h p).erase d), []) := by
            simp [releasePitch, hnil, herase]
          have hup : Function.update h p ((h p).erase d) p = (h p).erase d :=
            Function.update_same p _ h
          have hnd' : ((h p).erase d).Nodup := hnd.erase d
          have hrec := relRun_holders d p imm rest (Function.update h p ((h p).erase d))
            (by rw [hup]; exact hnd')
          rw [hup] at hrec
          have hdne : d ∉ (h p).erase d := by
            intro hc
            exact absurd rfl (hnd.mem_erase_iff.mp hc).1
          simp only [hstep, hrec, List.erase_of_not_mem hdne]
          simp
    · have hs : (releasePitch d p imm h).1 P = h P := by
        by_cases hnil : h p = []
        · simp [releasePitch, hnil]
        · by_cases herase : (h p).erase d = []
          · simp [releasePitch, hnil, herase, Function.update_noteq (Ne.symm hpP)]
          · simp [releasePitch, hnil, herase, Function.update_noteq (Ne.symm hpP)]
      have hrec := relRun_holders d P imm rest (releasePitch d p imm h).1 (by rw [hs]; exact hnd)
      rw [hs] at hrec
      rw [hrec]
      have hmem : P ∈ p :: rest ↔ P ∈ rest := by
        simp [List.mem_cons, Ne.symm hpP]
      simp [hmem]

/-- A single handler invocation emits `noteOn P` exactly when `P`'s holder set
transitions from empty to non-empty. -/
lemma stepB_on_char (P : Nat) (st : ChordState) (e : BEvent) :
    countOn P (stepB st e).2 =
      (if st.holders P = [] ∧ (stepB st e).1.holders P ≠ [] then 1 else 0) := by
  cases e with
  | down d chord =>
    by_cases hg : d ∈ st.activeButtons
    · simp [stepB, handleButtonDown, hg, countOn]
    · have hspec := trigRun_spec d P chord st.holders
      have hpost : (stepB st (BEvent.down d chord)).1.holders P =
          (if P ∈ chord then (st.holders P).insert d else st.holders P) := by
        simp only [stepB, handleButtonDown, hg, if_neg]
        exact hspec.1
      have hcnt : countOn P (stepB st (BEvent.down d chord)).2 =
          (if P ∈ chord ∧ st.holders P = [] then 1 else 0) := by
        simp only [stepB, handleButtonDown, hg, if_neg]
        exact hspec.2.1
      rw [hcnt, hpost]
      by_cases hP : P ∈ chord
      · by_cases hnil : st.holders P = []
        · simp [hP, hnil, insert_ne_nil]
        · simp [hP, hnil]
      · by_cases hnil : st.holders P = []
        · simp [hP, hnil]
        · simp [hP, hnil]
  | up d =>
    by_cases hg : d ∈ st.activeButtons
    · have hspec := relRun_spec d P false (st.activeNotes d) st.holders
      have hcnt : countOn P (stepB st (BEvent.up d)).2 = 0 := by
        simp only [stepB, handleButtonUp, hg, if_pos]
        exact hspec.1
      have hpost : st.holders P = [] → (stepB st (BEvent.up d)).1.holders P = [] := by
        intro hnil
        simp only [stepB, handleButtonUp, hg, if_pos]
        exact hspec.2.1 hnil
      rw [hcnt]
      by_cases hnil : st.holders P = []
      · simp [hnil, hpost hnil]
      · simp [hnil]
    · simp [stepB, handleButtonUp, hg, countOn]

/-- A single handler invocation emits `noteOff P` exactly when `P`'s holder
set transitions from non-empty to empty. -/
lemma stepB_off_char (P : Nat) (st : ChordState) (e : BEvent) :
    countOff P (stepB st e).2 =
      (if st.holders P ≠ [] ∧ (stepB st e).1.holders P = [] then 1 else 0) := by
  cases e with
  | down d chord =>
    by_cases hg : d ∈ st.activeButtons
    · simp [stepB, handleButtonDown, hg, countOff]
    · have hspec := trigRun_spec d P chord st.holders
      have hpost : (stepB st (BEvent.down d chord)).1.holders P =
          (if P ∈ chord then (st.holders P).insert d else st.holders P) := by
        simp only [stepB, handleButtonDown, hg, if_neg]
        exact hspec.1
      have hcnt : countOff P (stepB st (BEvent.down d chord)).2 = 0 := by
        simp only [stepB, handleButtonDown, hg, if_neg]
        exact hspec.2.2
      rw [hcnt, hpost]
      by_cases hP : P ∈ chord
      · simp [hP, insert_ne_nil]
      · by_cases hnil : st.holders P = []
        · simp [hP, hnil]
        · simp [hP, hnil]
  | up d =>
    by_cases hg : d ∈ st.activeButtons
    · have hspec := relRun_spec d P false (st.activeNotes d) st.holders
      have hpost : (stepB st (BEvent.up d)).1.holders P =
          (relRun d false st.holders (st.activeNotes d)).1 P := by
        simp [stepB, handleButtonUp, hg]
      have hcnt : countOff P (stepB st (BEvent.up d)).2 =
          (if st.holders P = [] then 0
            else if (relRun d false st.holders (st.activeNotes d)).1 P = [] then 1 else 0) := by
        simp only [stepB, handleButtonUp, hg, if_pos]
        exact hspec.2.2
      rw [hcnt, hpost]
      by_cases hnil : st.holders P = []
      · simp [hnil]
      · by_cases hres : (relRun d false st.holders (st.activeNotes d)).1 P = []
        · simp [hnil, hres]
        · simp [hnil, hres]
    · simp [stepB, handleButtonUp, hg, countOff]

lemma runB_append (l1 l2 : List BEvent) :
    ∀ st : ChordState,
      runB st (l1 ++ l2) =
        ((runB (runB st l1).1 l2).1, (runB st l1).2 ++ (runB (runB st l1).1 l2).2) := by
  induction l1 with
  | nil => intro st; simp [runB]
  | cons e es ih =>
    intro st
    simp [runB, ih, List.append_assoc]

/-- Running the button-down events of `ds` (distinct degrees, every chord
containing `P`, all fresh for the state): the holder set of `P` collects the
degrees, exactly one `noteOn P` is emitted iff it started empty, and no
`noteOff P` is emitted. -/
lemma runDowns (P : Nat) :
    ∀ (ds : List (Nat × List Nat)) (st : ChordState),
      (∀ x ∈ ds, x.1 ∉ st.activeButtons) →
      (ds.map Prod.fst).Nodup →
      (∀ x ∈ ds, P ∈ x.2) →
      (∀ x ∈ ds, x.1 ∉ st.holders P) →
      (runB st (ds.map fun x => BEvent.down x.1 x.2)).1.holders P
          = (ds.map Prod.fst).reverse ++ st.holders P ∧
      (runB st (ds.map fun x => BEvent.down x.1 x.2)).1.activeButtons
          = (ds.map Prod.fst).reverse ++ st.activeButtons ∧
      (∀ x ∈ ds, (runB st (ds.map fun x => BEvent.down x.1 x.2)).1.activeNotes x.1 = x.2) ∧
      (∀ dd, dd ∉ ds.map Prod.fst →
        (runB st (ds.map fun x => BEvent.down x.1 x.2)).1.activeNotes dd = st.activeNotes dd) ∧
      countOn P (runB st (ds.map fun x => BEvent.down x.1 x.2)).2
          = (if ds ≠ [] ∧ st.holders P = [] then 1 else 0) ∧
      countOff P (runB st (ds.map fun x => BEvent.down x.1 x.2)).2 = 0
  | [], st, _, _, _, _ => by simp [runB, countOn, countOff]
  | (d, c) :: rest, st, hbtn, hnd, hP, hhold => by
    have hguard : d ∉ st.activeButtons := hbtn (d, c) (List.mem_cons_self _ _)
    have hdP : d ∉ st.holders P := hhold (d, c) (List.mem_cons_self _ _)
    have hPc : P ∈ c := hP (d, c) (List.mem_cons_self _ _)
    have hdrest : d ∉ rest.map Prod.fst := by
      have := hnd
      simp only [List.map_cons, List.nodup_cons] at this
      exact this.1
    have hspec := trigRun_spec d P c st.holders
    have hins : (st.holders P).insert d = d :: st.holders P := List.insert_of_not_mem hdP
    set st' : ChordState :=
      { activeButtons := d :: st.activeButtons,
        activeNotes := Function.update st.activeNotes d c,
        holders := (trigRun d st.holders c).1 } with hst'
    have hstep : stepB st (BEvent.down d c) = (st', (trigRun d st.holders c).2) := by
      simp [stepB, handleButtonDown, hguard, hst']
    have hhold' : st'.holders P = d :: st.holders P := by
      rw [hst']
      simp only []
      rw [hspec.1, if_pos hPc, hins]
    have ih := runDowns P rest st'
      (by
        intro x hx
        have hne : x.1 ≠ d := by
          intro hc
          exact hdrest (hc ▸ List.mem_map_of_mem Prod.fst hx)
        have : x.1 ∉ st.activeButtons := hbtn x (List.mem_cons_of_mem _ hx)
        simp [hst', hne, this])
      (by
        have := hnd
        simp only [List.map_cons, List.nodup_cons] at this
        exact this.2)
      (fun x hx => hP x (List.mem_cons_of_mem _ hx))
      (by
        intro x hx
        have hne : x.1 ≠ d := by
          intro hc
          exact hdrest (hc ▸ List.mem_map_of_mem Prod.fst hx)
        have : x.1 ∉ st.holders P := hhold x (List.mem_cons_of_mem _ hx)
        rw [hhold']
        simp [hne, this])
    simp only [List.map_cons, runB, hstep, countOn_append, countOff_append]
    refine ⟨?_, ?_, ?_, ?_, ?_, ?_⟩
    · rw [ih.1, hhold', List.reverse_cons, List.append_assoc]
      simp
    · rw [ih.2.1, hst']
      simp only [List.reverse_cons, List.append_assoc]
      simp
    · intro x hx
      rcases List.mem_cons.mp hx with hx1 | hx2
      · subst hx1
        rw [ih.2.2.2.1 d hdrest, hst']
        simp [Function.update_same]
      · exact ih.2.2.1 x hx2
    · intro dd hdd
      have hdd1 : dd ≠ d := by
        intro hc
        exact hdd (by simp [hc])
      have hdd2 : dd ∉ rest.map Prod.fst := by
        intro hc
        exact hdd (by simp [hc])
      rw [ih.2.2.2.1 dd hdd2, hst']
      simp [Function.update_noteq hdd1]
    · rw [ih.2.2.2.2.1, hspec.2.1, hhold']
      by_cases hnil : st.holders P = []
      · simp [hPc, hnil]
      · simp [hPc, hnil]
    · rw [ih.2.2.2.2.2, hspec.2.2]

/-- Running the button-up events of `us` when `P`'s holder set consists
exactly of the degrees in `us` (no duplicates anywhere, every released degree
active and still holding a chord containing `P`): no `noteOn P` is emitted,
exactly one `noteOff P` is emitted unless `us` is empty, and the holder set
ends empty. -/
lemma runUps (P : Nat) :
    ∀ (us : List Nat) (st : ChordState),
      us.Nodup →
      (∀ u ∈ us, u ∈ st.activeButtons) →
      (∀ u ∈ us, P ∈ st.activeNotes u) →
      (st.holders P).Nodup →
      (∀ v, v ∈ st.holders P ↔ v ∈ us) →
      countOn P (runB st (us.map BEvent.up)).2 = 0 ∧
      countOff P (runB st (us.map BEvent.up)).2 = (if us = [] then 0 else 1) ∧
      (runB st (us.map BEvent.up)).1.holders P = []
  | [], st, _, _, _, _, hmem => by
    have : st.holders P = [] := by
      rw [List.eq_nil_iff_forall_not_mem]
      intro v hv
      exact absurd ((hmem v).mp hv) (List.not_mem_nil v)
    simp [runB, countOn, countOff, this]
  | u :: rest, st, hnd, hbtn, hnotes, hhnd, hmem => by
    have hguard : u ∈ st.activeButtons := hbtn u (List.mem_cons_self _ _)
    have hPu : P ∈ st.activeNotes u := hnotes u (List.mem_cons_self _ _)
    have hurest : u ∉ rest := (List.nodup_cons.mp hnd).1
    have hndrest : rest.Nodup := (List.nodup_cons.mp hnd).2
    have huh : u ∈ st.holders P := (hmem u).mpr (List.mem_cons_self _ _)
    have hhne : st.holders P ≠ [] := List.ne_nil_of_mem huh
    set st' : ChordState :=
      { activeButtons := st.activeButtons.erase u,
        activeNotes := Function.update st.activeNotes u [],
        holders := (relRun u false st.holders (st.activeNotes u)).1 } with hst'
    have hstep : stepB st (BEvent.up u) =
        (st', (relRun u false st.holders (st.activeNotes u)).2) := by
      simp [stepB, handleButtonUp, hguard, hst']
    have hspec := relRun_spec u P false (st.activeNotes u) st.holders
    have hhold' : st'.holders P = (st.holders P).erase u := by
      rw [hst']
      simp only []
      rw [relRun_holders u P false (st.activeNotes u) st.holders hhnd, if_pos hPu]
    have hmem' : ∀ v, v ∈ st'.holders P ↔ v ∈ rest := by
      intro v
      rw [hhold', hhnd.mem_erase_iff]
      constructor
      · rintro ⟨hvu, hv⟩
        rcases List.mem_cons.mp ((hmem v).mp hv) with h1 | h2
        · exact absurd h1 hvu
        · exact h2
      · intro hv
        refine ⟨?_, (hmem v).mpr (List.mem_cons_of_mem _ hv)⟩
        intro hc
        exact hurest (hc ▸ hv)
    have ih := runUps P rest st'
      hndrest
      (by
        intro v hv
        have hvne : v ≠ u := by
          intro hc
          exact hurest (hc ▸ hv)
        rw [hst']
        simp only []
        exact (List.mem_erase_of_ne hvne).mpr (hbtn v (List.mem_cons_of_mem _ hv)))
      (by
        intro v hv
        have hvne : v ≠ u := by
          intro hc
          exact hurest (hc ▸ hv)
        rw [hst']
        simp only []
        rw [Function.update_noteq hvne]
        exact hnotes v (List.mem_cons_of_mem _ hv))
      (by rw [hhold']; exact hhnd.erase u)
      hmem'
    simp only [List.map_cons, runB, hstep, countOn_append, countOff_append]
    have hoffhead : countOff P (relRun u false st.holders (st.activeNotes u)).2 =
        (if (st.holders P).erase u = [] then 1 else 0) := by
      rw [hspec.2.2, if_neg hhne]
      have : (relRun u false st.holders (st.activeNotes u)).1 P = (st.holders P).erase u := by
        rw [relRun_holders u P false (st.activeNotes u) st.holders hhnd, if_pos hPu]
      rw [this]
    have herase_rest : (st.holders P).erase u = [] ↔ rest = [] := by
      constructor
      · intro hc
        rw [List.eq_nil_iff_forall_not_mem]
        intro v hv
        have : v ∈ st'.holders P := (hmem' v).mpr hv
        rw [hhold', hc] at this
        exact List.not_mem_nil v this
      · intro hc
        rw [List.eq_nil_iff_forall_not_mem]
        intro v hv
        have : v ∈ rest := (hmem' v).mp (by rw [hhold']; exact hv)
        rw [hc] at this
        exact List.not_mem_nil v this
    refine ⟨?_, ?_, ih.2.2⟩
    · rw [ih.1, hspec.1]
    · rw [ih.2.1, hoffhead]
      by_cases hrest : rest = []
      · simp [hrest, herase_rest.mpr hrest]
      · have : ¬(st.holders P).erase u = [] := fun hc => hrest (herase_rest.mp hc)
        simp [hrest, this]

/-- Claim C1: for any set of overlapping button triggers (distinct degrees,
every chord containing `P`, presses before releases, releases in any order)
the engine receives exactly one `noteOn P` and exactly one `noteOff P`; and
at every single handler invocation, `noteOn P` is emitted exactly on the
empty→non-empty transition and `noteOff P` exactly on the non-empty→empty
transition of `P`'s holder set. -/
theorem C1_exactly_once_per_pitch (ds : List (Nat × List Nat)) (us : List Nat) (P : Nat)
    (hne : ds ≠ [])
    (hkeys : (ds.map Prod.fst).Nodup)
    (hperm : us.Perm (ds.map Prod.fst))
    (hP : ∀ x ∈ ds, P ∈ x.2) :
    countOn P (runB initialChordState
      ((ds.map fun x => BEvent.down x.1 x.2) ++ us.map BEvent.up)).2 = 1 ∧
    countOff P (runB initialChordState
      ((ds.map fun x => BEvent.down x.1 x.2) ++ us.map BEvent.up)).2 = 1 ∧
    (∀ st e, countOn P (stepB st e).2 =
      (if st.holders P = [] ∧ (stepB st e).1.holders P ≠ [] then 1 else 0)) ∧
    (∀ st e, countOff P (stepB st e).2 =
      (if st.holders P ≠ [] ∧ (stepB st e).1.holders P = [] then 1 else 0)) := by
  have hD := runDowns P ds initialChordState
    (by intro x _; simp [initialChordState])
    hkeys hP
    (by intro x _; simp [initialChordState])
  have hinit : initialChordState.holders P = [] := rfl
  have hinitb : initialChordState.activeButtons = [] := rfl
  have hD1 : (runB initialChordState (ds.map fun x => BEvent.down x.1 x.2)).1.holders P
      = (ds.map Prod.fst).reverse := by
    rw [hD.1, hinit, List.append_nil]
  have hD2 : (runB initialChordState (ds.map fun x => BEvent.down x.1 x.2)).1.activeButtons
      = (ds.map Prod.fst).reverse := by
    rw [hD.2.1, hinitb, List.append_nil]
  have husne : us ≠ [] := by
    intro hc
    have hlen := hperm.length_eq
    rw [hc] at hlen
    have : ds.map Prod.fst = [] := List.eq_nil_of_length_eq_zero hlen.symm
    exact hne (List.map_eq_nil_iff.mp this)
  have hU := runUps P us (runB initialChordState (ds.map fun x => BEvent.down x.1 x.2)).1
    (hperm.nodup_iff.mpr hkeys)
    (by
      intro u hu
      rw [hD2, List.mem_reverse]
      exact hperm.mem_iff.mp hu)
    (by
      intro u hu
      have hu2 : u ∈ ds.map Prod.fst := hperm.mem_iff.mp hu
      rcases List.mem_map.mp hu2 with ⟨x, hx, hx1⟩
      rw [← hx1, hD.2.2.1 x hx]
      exact hP x hx)
    (by rw [hD1]; exact List.nodup_reverse.mpr hkeys)
    (by
      intro v
      rw [hD1, List.mem_reverse]
      exact (hperm.mem_iff (a := v)).symm)
  have happ := runB_append (ds.map fun x => BEvent.down x.1 x.2) (us.map BEvent.up)
    initialChordState
  refine ⟨?_, ?_, fun st e => stepB_on_char P st e, fun st e => stepB_off_char P st e⟩
  · rw [happ]
    simp only [countOn_append]
    rw [hD.2.2.2.2.1, hU.1, if_pos ⟨hne, hinit⟩]
  · rw [happ]
    simp only [countOff_append]
    rw [hD.2.2.2.2.2, hU.2.1, if_neg husne]

theorem C1_witness :
    countOn 60 (runB initialChordState
      (([((0 : Nat), [60, 64]), (1, [60, 67])].map fun x => BEvent.down x.1 x.2) ++
        [1, 0].map BEvent.up)).2 = 1 ∧
    countOff 60 (runB initialChordState
      (([((0 : Nat), [60, 64]), (1, [60, 67])].map fun x => BEvent.down x.1 x.2) ++
        [1, 0].map BEvent.up)).2 = 1 := by
  have h := C1_exactly_once_per_pitch [((0 : Nat), [60, 64]), (1, [60, 67])] [1, 0] 60
    (by decide) (by decide) (by decide) (by decide)
  exact ⟨h.1, h.2.1⟩

/-- Claim C9: releasing a sourceId absent from a pitch's holder set is a safe
no-op (state unchanged, no engine call), a second release of the same degree
with no intervening trigger is the identity and emits nothing, and the two
releases together issue at most one `noteOff P`. -/
theorem C9_double_release (st : ChordState) (degree P : Nat) (imm : Bool)
    (h : Nat → List Nat)
    (hnd : st.activeButtons.Nodup)
    (habs : degree ∉ h P) :
    releasePitch degree P imm h = (h, []) ∧
    handleButtonUp degree false (handleButtonUp degree false st).1
      = ((handleButtonUp degree false st).1, []) ∧
    countOff P (handleButtonUp degree false st).2 +
      countOff P (handleButtonUp degree false (handleButtonUp degree false st).1).2 ≤ 1 := by
  have hrel : releasePitch degree P imm h = (h, []) := by
    by_cases hnil : h P = []
    · simp [releasePitch, hnil]
    · have her : (h P).erase degree = h P := List.erase_of_not_mem habs
      simp [releasePitch, hnil, her, Function.update_eq_self]
  have hsecond : handleButtonUp degree false (handleButtonUp degree false st).1
      = ((handleButtonUp degree false st).1, []) := by
    by_cases hg : degree ∈ st.activeButtons
    · have hst1 : (handleButtonUp degree false st).1.activeButtons
          = st.activeButtons.erase degree := by
        simp [handleButtonUp, hg]
      have hout : degree ∉ (handleButtonUp degree false st).1.activeButtons := by
        rw [hst1]
        intro hc
        exact absurd rfl (hnd.mem_erase_iff.mp hc).1
      have hnoop : ∀ s : ChordState, degree ∉ s.activeButtons →
          handleButtonUp degree false s = (s, []) := by
        intro s hs
        simp [handleButtonUp, hs]
      exact hnoop _ hout
    · have hid : (handleButtonUp degree false st) = (st, []) := by
        simp [handleButtonUp, hg]
      rw [hid]
      simp [handleButtonUp, hg]
  refine ⟨hrel, hsecond, ?_⟩
  rw [hsecond]
  simp only [countOff]
  by_cases hg : degree ∈ st.activeButtons
  · have hcalls : (handleButtonUp degree false st).2 =
        (relRun degree false st.holders (st.activeNotes degree)).2 := by
      simp [handleButtonUp, hg]
    have := (relRun_spec degree P false (st.activeNotes degree) st.holders).2.2
    rw [← countOff, hcalls, this]
    by_cases h1 : st.holders P = []
    · simp [h1, countOff]
    · by_cases h2 : (relRun degree false st.holders (st.activeNotes degree)).1 P = []
      · simp [h1, h2, countOff]
      · simp [h1, h2, countOff]
  · simp [handleButtonUp, hg, countOff]

theorem C9_witness :
    releasePitch 3 60 false (fun _ => []) = ((fun _ => []), []) ∧
    handleButtonUp 3 false (handleButtonUp 3 false initialChordState).1
      = ((handleButtonUp 3 false initialChordState).1, []) := by
  have h := C9_double_release initialChordState 3 60 false (fun _ => [])
    (by simp [initialChordState]) (by simp)
  exact ⟨h.1, h.2.1⟩

/-! ### Recording capture (part_000 lines 63–161, 231–307, 358–399;
ControlPanel.tsx lines 395–414) -/

inductive NoteKind where
  | on
  | off
deriving DecidableEq

/-- One recorded note event (the store's `RecordedNote`). -/
structure RecNote where
  time : ℚ
  kind : NoteKind
  midiNote : Nat
  velocity : ℚ
  degree : Nat
deriving DecidableEq

/-- The sequencer slice touched by the recording paths. -/
structure RecState where
  isRecording : Bool
  recordingStartTime : ℚ
  recordedNotes : List RecNote
deriving DecidableEq

/-- `enableRecording` (ControlPanel.tsx lines 395–404). -/
def enableRecording (st : RecState) : RecState :=
  { st with isRecording := true, recordingStartTime := 0, recordedNotes := [] }

/-- `stopRecording` (ControlPanel.tsx lines 406–414): the buffer is retained. -/
def stopRecording (st : RecState) : RecState :=
  { st with isRecording := false, recordingStartTime := 0 }

/-- Recording a batch of note-on events at wall time `t` (part_000 lines
126–161 for a chord, lines 235–273 for a single arpeggiator note, which is a
singleton batch).  Entries are `(midiNote, velocity, chordDegree)`.  When no
event has been recorded yet (`recordingStartTime = 0`) the first note-on sets
the start time and is recorded at relative time 0. -/
def recordOnBatch (t : ℚ) (batch : List (Nat × ℚ × Nat)) (st : RecState) : RecState :=
  if st.isRecording = true ∧ batch ≠ [] then
    if st.recordingStartTime = 0 then
      { st with recordingStartTime := t,
                recordedNotes := batch.map fun b =>
                  { time := 0, kind := .on, midiNote := b.1, velocity := b.2.1,
                    degree := b.2.2 } }
    else
      { st with recordedNotes := st.recordedNotes ++ batch.map fun b =>
          { time := t - st.recordingStartTime, kind := .on, midiNote := b.1,
            velocity := b.2.1, degree := b.2.2 } }
  else st

/-- Recording a note-off event at wall time `t` (part_000 lines 379–398 on
button release and lines 283–301 in the gate timeout): guarded by
`isRecording && recordingStartTime > 0`, velocity recorded as 0. -/
def recordOff (t : ℚ) (midiNote deg : Nat) (st : RecState) : RecState :=
  if st.isRecording = true ∧ 0 < st.recordingStartTime then
    { st with recordedNotes := st.recordedNotes ++
        [{ time := t - st.recordingStartTime, kind := .off, midiNote := midiNote,
           velocity := 0, degree := deg }] }
  else st

/-- Claim C10: while recording is armed and no event has been recorded yet
(`recordingStartTime` is the sentinel 0), note-off events are silently
discarded — they neither set the start time nor reach the buffer — while a
note-on batch starts the recording at that instant and every note of it is
recorded at relative time 0. -/
theorem C10_noteoff_discarded_before_start (st : RecState) (t : ℚ) (p deg : Nat)
    (harmed : st.isRecording = true)
    (hzero : st.recordingStartTime = 0) :
    recordOff t p deg st = st ∧
    (∀ batch : List (Nat × ℚ × Nat), batch ≠ [] →
      (recordOnBatch t batch st).recordingStartTime = t ∧
      ∀ n ∈ (recordOnBatch t batch st).recordedNotes, n.time = 0) := by
  constructor
  · simp [recordOff, hzero]
  · intro batch hbatch
    constructor
    · simp [recordOnBatch, harmed, hbatch, hzero]
    · intro n hn
      simp only [recordOnBatch, harmed, hbatch, hzero, ne_eq, not_false_eq_true,
        and_self, if_true, if_pos] at hn
      rcases List.mem_map.mp hn with ⟨b, _, hb⟩
      rw [← hb]

theorem C10_witness :
    recordOff 5 60 1 { isRecording := true, recordingStartTime := 0, recordedNotes := [] }
      = { isRecording := true, recordingStartTime := 0, recordedNotes := [] } ∧
    (recordOnBatch 5 [(60, 7/10, 1)]
      { isRecording := true, recordingStartTime := 0, recordedNotes := [] }).recordingStartTime
      = 5 := by
  have h := C10_noteoff_discarded_before_start
    { isRecording := true, recordingStartTime := 0, recordedNotes := [] } 5 60 1 rfl rfl
  exact ⟨h.1, (h.2 [(60, 7/10, 1)] (by decide)).1⟩

/-! ### Pattern saving (`savePattern`, ControlPanel.tsx lines 416–468) -/

/-- Flattened snapshot of the synthesis/effects configuration captured into a
pattern.  The code deep-clones the store's `synthesis`/`effects` slices; the
individual fields are opaque to all claims, so only a representative flat
record is kept. -/
structure SynthSnapshot where
  waveform : Nat
  attack : ℚ
  decay : ℚ
  sustain : ℚ
  releaseTime : ℚ
  filterCutoff : ℚ
  filterResonance : ℚ
  filterMode : Nat
  filterEnabled : Bool
  lfoRate : ℚ
  lfoDepth : ℚ
  lfoWaveform : Nat
  lfoEnabled : Bool
  detune : ℚ
  glideTime : ℚ
  tremoloOn : Bool
  flangerOn : Bool
  delayOn : Bool
  reverbOn : Bool
deriving DecidableEq

/-- A saved pattern (the store's `Pattern`; the random display color is
omitted). -/
structure Pattern where
  id : Nat
  name : String
  notes : List RecNote
  length : ℚ
  capturedParameters : Option SynthSnapshot
deriving DecidableEq

/-- `Math.max(...)` over a non-empty list (the empty case is unreachable
behind `savePattern`'s guard). -/
def maxTime : List ℚ → ℚ
  | [] => 0
  | t :: ts => ts.foldl max t

/-- `savePattern` (ControlPanel.tsx lines 416–468).  `now` is
`Date.now()`, `cfg` the store's current synthesis/effects configuration.
Returns the updated `(patterns, recordedNotes)` pair and the created pattern,
`none` when the buffer was empty (the EmptyRecording warning path). -/
def savePattern (now : Nat) (name : String) (cfg : SynthSnapshot)
    (patterns : List Pattern) (recordedNotes : List RecNote) :
    (List Pattern × List RecNote) × Option Pattern :=
  if recordedNotes = [] then ((patterns, recordedNotes), none)
  else
    let lastNoteTime := maxTime (recordedNotes.map fun n => n.time)
    let patternLength := lastNoteTime / 1000 + 1 / 2
    let pattern : Pattern :=
      { id := now, name := name, notes := recordedNotes, length := patternLength,
        capturedParameters := some cfg }
    ((patterns ++ [pattern], []), some pattern)

/-- Claim C6: saving an empty buffer fails (no pattern created, buffer and
pattern list untouched); saving a non-empty buffer creates a pattern of
length `(max event time)/1000 + 0.5` seconds carrying the current
configuration as `capturedParameters`, appends it, and clears the buffer. -/
theorem C6_save_pattern (now : Nat) (name : String) (cfg : SynthSnapshot)
    (patterns : List Pattern) (notes : List RecNote) :
    (notes = [] → savePattern now name cfg patterns notes = ((patterns, notes), none)) ∧
    (notes ≠ [] → savePattern now name cfg patterns notes =
      ((patterns ++
          [⟨now, name, notes, maxTime (notes.map fun n => n.time) / 1000 + 1 / 2, some cfg⟩],
          []),
        some ⟨now, name, notes,
          maxTime (notes.map fun n => n.time) / 1000 + 1 / 2, some cfg⟩)) := by
  constructor
  · intro h
    simp [savePattern, h]
  · intro h
    simp [savePattern, h]

/-- A concrete configuration snapshot used by witnesses and counterexamples. -/
def sampleSnapshot : SynthSnapshot :=
  { waveform := 0, attack := 1/100, decay := 1/5, sustain := 1, releaseTime := 3/10,
    filterCutoff := 20000, filterResonance := 1, filterMode := 0, filterEnabled := false,
    lfoRate := 1, lfoDepth := 0, lfoWaveform := 0, lfoEnabled := false, detune := 0,
    glideTime := 0, tremoloOn := false, flangerOn := false, delayOn := false,
    reverbOn := false }

theorem C6_witness :
    savePattern 1 "a" sampleSnapshot [] [] = (([], []), none) ∧
    savePattern 2 "b" sampleSnapshot [] [⟨1500, .on, 60, 7/10, 1⟩] =
      (([⟨2, "b", [⟨1500, .on, 60, 7/10, 1⟩], 2, some sampleSnapshot⟩], []),
        some ⟨2, "b", [⟨1500, .on, 60, 7/10, 1⟩], 2, some sampleSnapshot⟩) := by
  constructor
  · exact (C6_save_pattern 1 "a" sampleSnapshot [] []).1 rfl
  · have h := (C6_save_pattern 2 "b" sampleSnapshot [] [⟨1500, .on, 60, 7/10, 1⟩]).2
      (by decide)
    rw [h]
    norm_num [maxTime]

/-! ### Arpeggiator sessions (part_000 lines 164–318 and 326–422) -/

/-- State of one arpeggiator session: the closure variables of the
`handleButtonDown` arpeggiator branch, plus whether the step interval is
installed.  `noteOffTimeout = some p` models a pending delayed gate-off for
pitch `p`. -/
structure ArpSession where
  notes : List Nat
  idx : Nat
  currentPlayingNote : Option Nat
  noteOffTimeout : Option Nat
  intervalActive : Bool
deriving DecidableEq

/-- One `playNote` invocation for a non-random pattern (part_000 lines
203–308): clear any pending gate-off, force-stop the previous pitch, play
`arpNotes[idx % len]`, advance the index, and schedule a delayed gate-off
when `gate < 1`.  Recording side effects are modelled by `recordOnBatch`. -/
def playNoteStep (gate : ℚ) (s : ArpSession) : ArpSession × List EngineCall :=
  let stopPrev : List EngineCall :=
    match s.currentPlayingNote with
    | some p => [EngineCall.noteOff p true]
    | none => []
  let noteToPlay := s.notes.getD (s.idx % s.notes.length) 0
  ({ s with idx := s.idx + 1, currentPlayingNote := some noteToPlay,
            noteOffTimeout := if gate < 1 then some noteToPlay else none },
   stopPrev ++ [EngineCall.noteOn noteToPlay])

/-- Firing of a pending gate-off timeout (part_000 lines 278–306): it stops
the pitch only if it is still the session's current one. -/
def fireGateTimeout (s : ArpSession) : ArpSession × List EngineCall :=
  match s.noteOffTimeout with
  | none => (s, [])
  | some p =>
    if s.currentPlayingNote = some p then
      ({ s with currentPlayingNote := none, noteOffTimeout := none },
        [EngineCall.noteOff p true])
    else ({ s with noteOffTimeout := none }, [])

/-- `handleButtonDown` in arpeggiator mode (part_000 lines 164–318): updates
the refs, builds the note sequence, plays the first note immediately and
installs the step interval.  The global holder map is *not* touched — the
arpeggiator bypasses it. -/
def handleButtonDownArp (degree : Nat) (chord : List Nat) (pattern : ArpPattern)
    (octaves : Nat) (gate : ℚ) (st : ChordState) :
    ChordState × ArpSession × List EngineCall :=
  if degree ∈ st.activeButtons then
    (st, { notes := [], idx := 0, currentPlayingNote := none, noteOffTimeout := none,
           intervalActive := false }, [])
  else
    let st' : ChordState :=
      { st with activeButtons := degree :: st.activeButtons,
                activeNotes := Function.update st.activeNotes degree chord }
    let r := playNoteStep gate
      { notes := arpNoteSeq pattern chord octaves, idx := 0, currentPlayingNote := none,
        noteOffTimeout := none, intervalActive := true }
    (st', r.1, r.2)

/-- `handleButtonUp` while the arpeggiator session is running (part_000 lines
326–422): clears the step intervalness and runs the ordinary holder-set
release over the stored chord (with `immediate = true`).  The closure-local
`noteOffTimeout` and `currentPlayingNote` of `playNote` are not reachable
from this handler and are therefore left untouched. -/
def handleButtonUpArp (degree : Nat) (st : ChordState) (sess : ArpSession) :
    ChordState × ArpSession × List EngineCall :=
  if degree ∈ st.activeButtons then
    let r := handleButtonUp degree true st
    (r.1, { sess with intervalActive := false }, r.2)
  else (st, sess, [])

/-- Claim C4 (exhibit of the divergence): pressing an arpeggiator trigger on
chord `[60, 64, 67]` (`up`, one octave, `gate = 1`) sounds pitch 60; the
subsequent release emits *no* engine call at all — in particular no
`noteOff 60` — and leaves the session with pitch 60 still current and no
pending gate-off that could ever stop it.  The claim (and the code's own
comment at the release site) say the sounding pitch is force-stopped. -/
theorem C4_arp_release_leaves_note_sounding :
    (handleButtonDownArp 0 [60, 64, 67] .up 1 1 initialChordState).2.2
      = [EngineCall.noteOn 60] ∧
    (handleButtonUpArp 0
      (handleButtonDownArp 0 [60, 64, 67] .up 1 1 initialChordState).1
      (handleButtonDownArp 0 [60, 64, 67] .up 1 1 initialChordState).2.1).2.2 = [] ∧
    (handleButtonUpArp 0
      (handleButtonDownArp 0 [60, 64, 67] .up 1 1 initialChordState).1
      (handleButtonDownArp 0 [60, 64, 67] .up 1 1 initialChordState).2.1).2.1.currentPlayingNote
      = some 60 ∧
    (handleButtonUpArp 0
      (handleButtonDownArp 0 [60, 64, 67] .up 1 1 initialChordState).1
      (handleButtonDownArp 0 [60, 64, 67] .up 1 1 initialChordState).2.1).2.1.noteOffTimeout
      = none := by
  refine ⟨?_, ?_, ?_, ?_⟩ <;> decide

/-! ### Timeline clock and clip scheduler (ControlPanel.tsx lines 636–847) -/

/-- A placed clip (the store's `TimelineClip`; `startTime` is in beats). -/
structure TimelineClip where
  id : Nat
  patternId : Nat
  startTime : ℚ
  track : Nat
deriving DecidableEq

/-- Engine calls of the timeline voice pool.  `applyParams` stands for the
block of parameter setters applied from a pattern's `capturedParameters`
(lines 738–755), `restoreParams` for the block restoring the global store
configuration (lines 808–823), and `liveNoteOff` for the live-pool
`noteOff(note, true)` issued by `stopPlayback` (line 945). -/
inductive TCall where
  | timelineNoteOn (midiNote : Nat) (velocity : ℚ)
  | timelineNoteOff (midiNote : Nat)
  | applyParams (cfg : SynthSnapshot)
  | restoreParams
  | liveNoteOff (midiNote : Nat)
deriving DecidableEq

/-- Dispatch key, the tuple behind the string
`clipId-time-midiNote-type` (line 763). -/
abbrev ScheduleKey := Nat × ℚ × Nat × NoteKind

/-- The playback bookkeeping: `playbackRef.current` plus the effect-local
`scheduledNotes` set.  `activeClips` is an association list because the code
distinguishes a clip tracked with an empty pitch set from an untracked clip
(`activeClips.has`). -/
structure PlaybackState where
  timelineNotes : List Nat
  lastTime : ℚ
  activeClips : List (Nat × List Nat)
  currentParametersClipId : Option Nat
  activeClipsWithParams : List Nat
  scheduledNotes : List ScheduleKey
deriving DecidableEq

def initialPlaybackState : PlaybackState :=
  { timelineNotes := [], lastTime := 0, activeClips := [],
    currentParametersClipId := none, activeClipsWithParams := [],
    scheduledNotes := [] }

def lookupClip (m : List (Nat × List Nat)) (clipId : Nat) : Option (List Nat) :=
  (m.find? fun e => e.1 = clipId).map Prod.snd

def removeClipEntry (m : List (Nat × List Nat)) (clipId : Nat) : List (Nat × List Nat) :=
  m.filter fun e => ¬e.1 = clipId

/-- `activeClips.get(clipId)?.add(p)`: update the entry when present. -/
def addClipPitch (m : List (Nat × List Nat)) (clipId p : Nat) : List (Nat × List Nat) :=
  m.map fun e => if e.1 = clipId then (e.1, e.2.insert p) else e

/-- `activeClips.get(clipId)?.delete(p)`: update the entry when present. -/
def removeClipPitch (m : List (Nat × List Nat)) (clipId p : Nat) : List (Nat × List Nat) :=
  m.map fun e => if e.1 = clipId then (e.1, e.2.erase p) else e

/-- The playback effect's fixed data for one run: looping flag, tempo, the
store's patterns and timeline, and the precomputed `loopDurationMs`. -/
structure TEnv where
  isLooping : Bool
  bpm : ℚ
  patterns : List Pattern
  timeline : List TimelineClip
  loopDurationMs : ℚ

/-- `beatDuration = (60 / bpm) * 1000` (line 659). -/
def TEnv.beatDuration (env : TEnv) : ℚ := 60 / env.bpm * 1000

/-- `loopEndTime` in seconds (lines 640–649): running maximum over clips with
a resolvable pattern of clip start (s) + pattern length (s), from 0. -/
def computeLoopEnd (timeline : List TimelineClip) (patterns : List Pattern) (bpm : ℚ) : ℚ :=
  timeline.foldl
    (fun acc clip =>
      match patterns.find? fun p => p.id = clip.patternId with
      | none => acc
      | some pattern => max acc (clip.startTime * 60 / bpm + pattern.length))
    0

/-- `loopDurationMs = loopEndTime * 1000` (line 660). -/
def computeLoopDurationMs (timeline : List TimelineClip) (patterns : List Pattern)
    (bpm : ℚ) : ℚ :=
  computeLoopEnd timeline patterns bpm * 1000

/-- `loopEndBeat` (line 652): falls back to `totalBeats`, but is used only in
the startup log message. -/
def loopEndBeat (timeline : List TimelineClip) (patterns : List Pattern)
    (bpm totalBeats : ℚ) : ℚ :=
  let t := computeLoopEnd timeline patterns bpm
  if 0 < t then t * bpm / 60 else totalBeats

/-- JavaScript `%` on the non-negative operands used here:
`a - b * Math.floor(a / b)`. -/
def jsMod (a b : ℚ) : ℚ := a - b * (⌊a / b⌋ : ℚ)

/-- `effectiveElapsedMs` (lines 668–670). -/
def effectiveElapsed (isLooping : Bool) (loopDurationMs elapsedMs : ℚ) : ℚ :=
  if isLooping = true ∧ 0 < loopDurationMs then jsMod elapsedMs loopDurationMs else elapsedMs

/-- Loop-restart detection (line 682):
`Math.floor(elapsedMs / dur) > Math.floor(lastTime / dur)`. -/
def loopResetTriggered (isLooping : Bool) (loopDurationMs lastTime elapsedMs : ℚ) : Prop :=
  isLooping = true ∧ 0 < loopDurationMs ∧
    ⌊lastTime / loopDurationMs⌋ < ⌊elapsedMs / loopDurationMs⌋

instance (b : Bool) (d l e : ℚ) : Decidable (loopResetTriggered b d l e) := by
  unfold loopResetTriggered
  exact inferInstance

/-- The loop-restart reset sweep (lines 683–695): clear the dispatched keys,
force-stop every pitch tracked in `activeClips`, then clear all clip
tracking, the timeline-note set and the parameter-context owner. -/
def loopResetSweep (ps : PlaybackState) : PlaybackState × List TCall :=
  ({ ps with scheduledNotes := [], activeClips := [], timelineNotes := [],
             currentParametersClipId := none, activeClipsWithParams := [] },
   ps.activeClips.foldl (fun acc e => acc ++ e.2.map TCall.timelineNoteOff) [])

/-- First-seen parameter application (lines 728–759): apply the pattern's
captured parameters unless this clip itself is already the context owner. -/
def applyParamsStep (clipId : Nat) (pattern : Pattern) (ps : PlaybackState) :
    PlaybackState × List TCall :=
  match pattern.capturedParameters with
  | some params =>
    if ps.currentParametersClipId = some clipId then (ps, [])
    else
      ({ ps with currentParametersClipId := some clipId,
                 activeClipsWithParams := ps.activeClipsWithParams.insert clipId },
       [TCall.applyParams params])
  | none => (ps, [])

/-- Dispatch of one pattern note for an active clip (lines 762–785): inside
the 30 ms tolerance window and not yet dispatched this loop iteration, a
Begin force-stops an already-sounding pitch first (defensive retrigger), then
notes on and marks it sounding; an End notes off and unmarks. -/
def dispatchNote (clipId : Nat) (relativeTimeMs : ℚ) (acc : PlaybackState × List TCall)
    (note : RecNote) : PlaybackState × List TCall :=
  let ps := acc.1
  let key : ScheduleKey := (clipId, note.time, note.midiNote, note.kind)
  if |relativeTimeMs - note.time| < 30 ∧ key ∉ ps.scheduledNotes then
    let ps1 := { ps with scheduledNotes := ps.scheduledNotes ++ [key] }
    match note.kind with
    | .on =>
      let defensive :=
        if note.midiNote ∈ ps1.timelineNotes
        then [TCall.timelineNoteOff note.midiNote] else []
      ({ ps1 with activeClips := addClipPitch ps1.activeClips clipId note.midiNote,
                  timelineNotes := ps1.timelineNotes.insert note.midiNote },
        acc.2 ++ defensive ++ [TCall.timelineNoteOn note.midiNote note.velocity])
    | .off =>
      ({ ps1 with activeClips := removeClipPitch ps1.activeClips clipId note.midiNote,
                  timelineNotes := ps1.timelineNotes.erase note.midiNote },
        acc.2 ++ [TCall.timelineNoteOff note.midiNote])
  else acc

/-- Deactivation of a clip that just left its active window (lines 786–827):
force-stop its tracked pitches, drop its tracking, and if it owned the
parameter context, restore the global parameters and clear ownership. -/
def deactivateClip (clipId : Nat) (ps : PlaybackState) : PlaybackState × List TCall :=
  match lookupClip ps.activeClips clipId with
  | none => (ps, [])
  | some pitches =>
    let offCalls := pitches.map TCall.timelineNoteOff
    let ps1 : PlaybackState :=
      { ps with timelineNotes := pitches.foldl (fun acc p => acc.erase p) ps.timelineNotes,
                activeClips := removeClipEntry ps.activeClips clipId,
                activeClipsWithParams := ps.activeClipsWithParams.erase clipId }
    if ps1.currentParametersClipId = some clipId then
      ({ ps1 with currentParametersClipId := none }, offCalls ++ [TCall.restoreParams])
    else (ps1, offCalls)

/-- Per-clip processing inside the tick's `timeline.forEach` (lines 709–828).
A clip with no resolvable pattern is skipped (orphan tolerance). -/
def processClip (env : TEnv) (currentBeat : ℚ) (acc : PlaybackState × List TCall)
    (clip : TimelineClip) : PlaybackState × List TCall :=
  match env.patterns.find? fun p => p.id = clip.patternId with
  | none => acc
  | some pattern =>
    let clipStartBeat := clip.startTime
    let clipLengthBeats := pattern.length * env.bpm / 60
    if clipStartBeat ≤ currentBeat ∧ currentBeat < clipStartBeat + clipLengthBeats then
      let relativeTimeMs := (currentBeat - clipStartBeat) * env.beatDuration
      let r1 :=
        if lookupClip acc.1.activeClips clip.id = none then
          applyParamsStep clip.id pattern
            { acc.1 with activeClips := acc.1.activeClips ++ [(clip.id, [])] }
        else (acc.1, [])
      let r2 := pattern.notes.foldl (dispatchNote clip.id relativeTimeMs) (r1.1, [])
      (r2.1, acc.2 ++ r1.2 ++ r2.2)
    else
      if (lookupClip acc.1.activeClips clip.id).isSome then
        let r := deactivateClip clip.id acc.1
        (r.1, acc.2 ++ r.2)
      else acc

/-- One `playbackInterval` tick at wall-elapsed `elapsedMs` (lines 664–833).
Returns the new bookkeeping state, the engine calls in emission order, and
whether playback stopped (the non-looping termination branch, which runs
`stopPlayback`).  Order: stop check, loop-restart reset, `lastTime` update,
clip processing in timeline order, dispatched-key prune. -/
def tick (env : TEnv) (elapsedMs : ℚ) (ps : PlaybackState) :
    PlaybackState × List TCall × Bool :=
  if env.isLooping = false ∧ env.loopDurationMs ≤ elapsedMs then
    ({ ps with timelineNotes := [], activeClips := [] },
      (ps.timelineNotes.map TCall.liveNoteOff, true))
  else
    let r1 :=
      if loopResetTriggered env.isLooping env.loopDurationMs ps.lastTime elapsedMs then
        loopResetSweep ps
      else (ps, [])
    let currentBeat :=
      effectiveElapsed env.isLooping env.loopDurationMs elapsedMs / env.beatDuration
    let r3 := env.timeline.foldl (processClip env currentBeat)
      ({ r1.1 with lastTime := elapsedMs }, [])
    let ps4 :=
      if 1000 < r3.1.scheduledNotes.length then { r3.1 with scheduledNotes := [] } else r3.1
    (ps4, (r1.2 ++ r3.2, false))

lemma computeLoopEnd_foldl (patterns : List Pattern) (bpm : ℚ) :
    ∀ (timeline : List TimelineClip) (acc : ℚ),
      timeline.foldl
        (fun acc clip =>
          match patterns.find? fun p => p.id = clip.patternId with
          | none => acc
          | some pattern => max acc (clip.startTime * 60 / bpm + pattern.length)) acc
      = (timeline.filterMap fun clip =>
          (patterns.find? fun p => p.id = clip.patternId).map
            fun pattern => clip.startTime * 60 / bpm + pattern.length).foldl max acc
  | [], acc => rfl
  | clip :: rest, acc => by
    cases hfind : patterns.find? fun p => p.id = clip.patternId with
    | none =>
      simp only [List.foldl_cons, List.filterMap_cons, hfind, Option.map_none']
      exact computeLoopEnd_foldl patterns bpm rest acc
    | some pattern =>
      simp only [List.foldl_cons, List.filterMap_cons, hfind, Option.map_some']
      exact computeLoopEnd_foldl patterns bpm rest _

/-- Counterexample to claim C8: with no clips, `loopDurationMs` is 0 (it does
not fall back to any configured default — only the log-message beat value
does); in looping mode the elapsed time is then never wrapped, and in
non-looping mode the very first tick already stops playback. -/
theorem C8_cex :
    computeLoopDurationMs [] [] 120 = 0 ∧
    effectiveElapsed true (computeLoopDurationMs [] [] 120) 9999 = 9999 ∧
    (tick { isLooping := false, bpm := 120, patterns := [], timeline := [],
            loopDurationMs := computeLoopDurationMs [] [] 120 } 0
      initialPlaybackState).2.2 = true ∧
    loopEndBeat [] [] 120 32 = 32 := by
  have h0 : computeLoopDurationMs [] [] 120 = 0 := by
    simp [computeLoopDurationMs, computeLoopEnd]
  refine ⟨h0, ?_, ?_, ?_⟩
  · rw [h0]
    simp [effectiveElapsed]
  · rw [h0]
    simp [tick]
  · simp [loopEndBeat, computeLoopEnd]

/-- Claim C8 amended: `loopDurationMs` is `1000 ×` the maximum over placed
clips with a resolvable pattern of clip-start seconds plus pattern length
(accumulated from 0); with no clips it is 0 — there is no fallback — so the
looping modulo never wraps and non-looping playback halts on its first
tick. -/
theorem C8_loop_duration (timeline : List TimelineClip) (patterns : List Pattern)
    (bpm : ℚ) :
    computeLoopEnd timeline patterns bpm =
      (timeline.filterMap fun clip =>
        (patterns.find? fun p => p.id = clip.patternId).map
          fun pattern => clip.startTime * 60 / bpm + pattern.length).foldl max 0 ∧
    (timeline = [] → computeLoopDurationMs timeline patterns bpm = 0) ∧
    (∀ e : ℚ, effectiveElapsed true 0 e = e) ∧
    (∀ (e : ℚ) (ps : PlaybackState), 0 ≤ e →
      (tick { isLooping := false, bpm := bpm, patterns := patterns,
              timeline := timeline, loopDurationMs := 0 } e ps).2.2 = true) := by
  refine ⟨computeLoopEnd_foldl patterns bpm timeline 0, ?_, ?_, ?_⟩
  · intro h
    subst h
    simp [computeLoopDurationMs, computeLoopEnd]
  · intro e
    simp [effectiveElapsed]
  · intro e ps he
    simp [tick, he]

theorem C8_witness :
    computeLoopDurationMs [] [] 120 = 0 ∧ effectiveElapsed true 0 123 = 123 :=
  ⟨(C8_loop_duration [] [] 120).2.1 rfl, (C8_loop_duration [] [] 120).2.2.1 123⟩

lemma dispatchNote_lastTime (cid : Nat) (rel : ℚ) (acc : PlaybackState × List TCall)
    (note : RecNote) : (dispatchNote cid rel acc note).1.lastTime = acc.1.lastTime := by
  rcases note with ⟨t, k, m, v, dg⟩
  cases k <;> (simp only [dispatchNote]; split <;> simp)

lemma dispatchFold_lastTime (cid : Nat) (rel : ℚ) :
    ∀ (notes : List RecNote) (acc : PlaybackState × List TCall),
      ((notes.foldl (dispatchNote cid rel) acc).1.lastTime = acc.1.lastTime)
  | [], _ => rfl
  | note :: rest, acc => by
    rw [List.foldl_cons, dispatchFold_lastTime cid rel rest _, dispatchNote_lastTime]

lemma applyParamsStep_lastTime (cid : Nat) (pattern : Pattern) (ps : PlaybackState) :
    (applyParamsStep cid pattern ps).1.lastTime = ps.lastTime := by
  rcases pattern with ⟨pid, pname, pnotes, plen, pcap⟩
  cases pcap
  · rfl
  · simp only [applyParamsStep]
    split <;> rfl

lemma deactivateClip_lastTime (cid : Nat) (ps : PlaybackState) :
    (deactivateClip cid ps).1.lastTime = ps.lastTime := by
  cases h : lookupClip ps.activeClips cid
  · simp only [deactivateClip, h]
  · simp only [deactivateClip, h]
    split <;> rfl

lemma processClip_lastTime (env : TEnv) (b : ℚ) (acc : PlaybackState × List TCall)
    (clip : TimelineClip) : (processClip env b acc clip).1.lastTime = acc.1.lastTime := by
  unfold processClip
  cases env.patterns.find? fun p => p.id = clip.patternId with
  | none => rfl
  | some pattern =>
    simp only []
    split
    · rw [dispatchFold_lastTime]
      split
      · rw [applyParamsStep_lastTime]
      · rfl
    · split
      · rw [deactivateClip_lastTime]
      · rfl

lemma clipFold_lastTime (env : TEnv) (b : ℚ) :
    ∀ (timeline : List TimelineClip) (acc : PlaybackState × List TCall),
      ((timeline.foldl (processClip env b) acc).1.lastTime = acc.1.lastTime)
  | [], _ => rfl
  | clip :: rest, acc => by
    rw [List.foldl_cons, clipFold_lastTime env b rest _, processClip_lastTime]

lemma mem_sweepCalls :
    ∀ (l : List (Nat × List Nat)) (init : List TCall) (x : TCall),
      (x ∈ l.foldl (fun acc e => acc ++ e.2.map TCall.timelineNoteOff) init ↔
        x ∈ init ∨ ∃ e ∈ l, x ∈ e.2.map TCall.timelineNoteOff)
  | [], init, x => by simp
  | e :: rest, init, x => by
    rw [List.foldl_cons, mem_sweepCalls rest _ x]
    simp only [List.mem_append, List.mem_cons]
    constructor
    · rintro (⟨h1 | h1⟩ | ⟨f, hf, hx⟩)
      · exact Or.inl h1
      · exact Or.inr ⟨e, Or.inl rfl, h1⟩
      · exact Or.inr ⟨f, Or.inr hf, hx⟩
    · rintro (h1 | ⟨f, hf | hf, hx⟩)
      · exact Or.inl (Or.inl h1)
      · exact Or.inl (Or.inr (hf ▸ hx))
      · exact Or.inr ⟨f, hf, hx⟩

/-- Claim C3: on a tick whose wall-elapsed time crosses a multiple of
`loopDurationMs = 8000`, the scheduler performs one full reset sweep —
force-stopping every pitch tracked across all active clips and clearing the
dispatched-key set, the `activeClips` map and the parameter-context owner —
whose calls open that same tick's emission; `lastTime` is advanced to the
tick's elapsed time so no later tick of the same loop iteration triggers the
sweep again; and `effectiveElapsed` at wall time 8050 is 50. -/
theorem C3_loop_restart (env : TEnv) (ps : PlaybackState) (elapsedMs : ℚ)
    (hloop : env.isLooping = true)
    (_hdur : env.loopDurationMs = 8000)
    (htrig : loopResetTriggered env.isLooping env.loopDurationMs ps.lastTime elapsedMs) :
    (∀ c ∈ ps.activeClips, ∀ p ∈ c.2, TCall.timelineNoteOff p ∈ (loopResetSweep ps).2) ∧
    (loopResetSweep ps).1.scheduledNotes = [] ∧
    (loopResetSweep ps).1.activeClips = [] ∧
    (loopResetSweep ps).1.currentParametersClipId = none ∧
    (∃ clipCalls, (tick env elapsedMs ps).2.1 = (loopResetSweep ps).2 ++ clipCalls) ∧
    (tick env elapsedMs ps).1.lastTime = elapsedMs ∧
    (∀ e2 : ℚ, ⌊e2 / env.loopDurationMs⌋ = ⌊elapsedMs / env.loopDurationMs⌋ →
      ¬loopResetTriggered env.isLooping env.loopDurationMs elapsedMs e2) ∧
    effectiveElapsed true 8000 8050 = 50 := by
  have hnostop : ¬(env.isLooping = false ∧ env.loopDurationMs ≤ elapsedMs) := by
    rintro ⟨hc, -⟩
    rw [hloop] at hc
    exact Bool.noConfusion hc
  refine ⟨?_, rfl, rfl, rfl, ?_, ?_, ?_, ?_⟩
  · intro c hc p hp
    rw [loopResetSweep]
    simp only []
    rw [mem_sweepCalls]
    exact Or.inr ⟨c, hc, List.mem_map_of_mem _ hp⟩
  · refine ⟨(env.timeline.foldl
      (processClip env
        (effectiveElapsed env.isLooping env.loopDurationMs elapsedMs / env.beatDuration))
      ({ (loopResetSweep ps).1 with lastTime := elapsedMs }, [])).2, ?_⟩
    rw [tick]
    rw [if_neg hnostop, if_pos htrig]
  · rw [tick, if_neg hnostop, if_pos htrig]
    dsimp only
    split <;> rw [clipFold_lastTime]
  · intro e2 heq
    rintro ⟨-, -, hlt⟩
    rw [heq] at hlt
    exact lt_irrefl _ hlt
  · rw [effectiveElapsed, if_pos ⟨rfl, by norm_num⟩, jsMod]
    norm_num

def c3Env : TEnv :=
  { isLooping := true, bpm := 120, patterns := [], timeline := [], loopDurationMs := 8000 }

def c3Ps : PlaybackState :=
  { timelineNotes := [60], lastTime := 7995, activeClips := [(2, [60])],
    currentParametersClipId := none, activeClipsWithParams := [], scheduledNotes := [] }

lemma c3_trig : loopResetTriggered c3Env.isLooping c3Env.loopDurationMs c3Ps.lastTime 8005 := by
  refine ⟨rfl, by norm_num [c3Env], ?_⟩
  show (⌊(7995 : ℚ) / 8000⌋ : ℤ) < ⌊(8005 : ℚ) / (8000 : ℚ)⌋
  norm_num

theorem C3_witness :
    TCall.timelineNoteOff 60 ∈ (loopResetSweep c3Ps).2 ∧
    (loopResetSweep c3Ps).1.activeClips = [] ∧
    effectiveElapsed true 8000 8050 = 50 := by
  have h := C3_loop_restart c3Env c3Ps 8005 rfl rfl c3_trig
  exact ⟨h.1 (2, [60]) (by simp [c3Ps]) 60 (by simp), h.2.2.1, h.2.2.2.2.2.2.2⟩

/-- Pattern of clip 1: a single Begin of pitch 60 at relative time 0, length
1 s (2 beats at 120 bpm). -/
def c2PatternA : Pattern := ⟨10, "pa", [⟨0, .on, 60, 1, 0⟩], 1, none⟩

/-- Pattern of clip 2: same shape; its End was never dispatched, so pitch 60
is still tracked as sounding for clip 2. -/
def c2PatternB : Pattern := ⟨20, "pb", [⟨0, .on, 60, 1, 0⟩], 1, none⟩

def c2ClipA : TimelineClip := ⟨1, 10, 11, 0⟩

def c2ClipB : TimelineClip := ⟨2, 20, 9, 1⟩

/-- Timeline with the newly activating clip 1 listed before the deactivating
clip 2. -/
def c2Env : TEnv :=
  { isLooping := true, bpm := 120, patterns := [c2PatternA, c2PatternB],
    timeline := [c2ClipA, c2ClipB], loopDurationMs := 100000 }

/-- Same data with clip 2 listed first. -/
def c2EnvSwapped : TEnv :=
  { isLooping := true, bpm := 120, patterns := [c2PatternA, c2PatternB],
    timeline := [c2ClipB, c2ClipA], loopDurationMs := 100000 }

/-- State just before the tick at wall time 5500 ms (beat 11): clip 2 is
tracked with pitch 60 still sounding, clip 1 not yet seen. -/
def c2Ps : PlaybackState :=
  { timelineNotes := [60], lastTime := 5490, activeClips := [(2, [60])],
    currentParametersClipId := none, activeClipsWithParams := [],
    scheduledNotes := [(2, 0, 60, .on)] }

/-- Counterexample to claim C2: at beat 11, clip 1 becomes active and
dispatches Begin(60) while clip 2 leaves its window still holding pitch 60.
Because the tick processes clips in timeline order — not deactivations before
activations — clip 2's deactivation force-stop lands *after* clip 1's fresh
`timelineNoteOn 60`: the tick ends with pitch 60 silenced (`timelineNotes`
empty) even though clip 1 just began it and still tracks it as sounding. -/
theorem C2_cex :
    (tick c2Env 5500 c2Ps).2.1 =
      [TCall.timelineNoteOff 60, TCall.timelineNoteOn 60 1, TCall.timelineNoteOff 60] ∧
    (tick c2Env 5500 c2Ps).1.timelineNotes = [] ∧
    (tick c2Env 5500 c2Ps).1.activeClips = [(1, [60])] := by
  norm_num [tick, c2Env, c2Ps, c2PatternA, c2PatternB, c2ClipA, c2ClipB, processClip,
    dispatchNote, deactivateClip, applyParamsStep, loopResetTriggered, effectiveElapsed,
    jsMod, lookupClip, addClipPitch, removeClipPitch, removeClipEntry, loopResetSweep,
    TEnv.beatDuration, List.insert, List.erase, List.find?, reduceCtorEq]
  simp

/-- Claim C2 amended: within a tick the loop-restart reset does run first
(its calls prefix the tick's emission), but the clips are then processed in
timeline-array order with each clip's activation/dispatch or deactivation
handled as encountered; the claimed protection of a fresh Begin from another
clip's same-tick deactivation holds only when the deactivating clip precedes
the newly active clip in the array — as in the mirrored scenario, where clip
2's deactivation stop precedes clip 1's Begin and the tick ends with pitch 60
sounding. -/
theorem C2_tick_order :
    (∀ (env : TEnv) (e : ℚ) (ps : PlaybackState), env.isLooping = true →
      ∃ clipCalls, (tick env e ps).2.1 =
        (if loopResetTriggered env.isLooping env.loopDurationMs ps.lastTime e
          then (loopResetSweep ps).2 else []) ++ clipCalls) ∧
    (tick c2EnvSwapped 5500 c2Ps).2.1 =
      [TCall.timelineNoteOff 60, TCall.timelineNoteOn 60 1] ∧
    (tick c2EnvSwapped 5500 c2Ps).1.timelineNotes = [60] ∧
    (tick c2EnvSwapped 5500 c2Ps).1.activeClips = [(1, [60])] := by
  refine ⟨?_, ?_⟩
  · intro env e ps hloop
    have hnostop : ¬(env.isLooping = false ∧ env.loopDurationMs ≤ e) := by
      rintro ⟨hc, -⟩
      rw [hloop] at hc
      exact Bool.noConfusion hc
    by_cases htr : loopResetTriggered env.isLooping env.loopDurationMs ps.lastTime e
    · rw [tick, if_neg hnostop, if_pos htr, if_pos htr]
      exact ⟨_, rfl⟩
    · rw [tick, if_neg hnostop, if_neg htr, if_neg htr]
      exact ⟨_, (List.nil_append _).symm⟩
  · norm_num [tick, c2EnvSwapped, c2Ps, c2PatternA, c2PatternB, c2ClipA, c2ClipB,
      processClip, dispatchNote, deactivateClip, applyParamsStep, loopResetTriggered,
      effectiveElapsed, jsMod, lookupClip, addClipPitch, removeClipPitch,
      removeClipEntry, loopResetSweep, TEnv.beatDuration, List.insert, List.erase,
      List.find?, reduceCtorEq]
    simp

/-- Pattern of clip 1 for the C5 scenario: carries captured parameters, no
notes. -/
def c5PatternA : Pattern := ⟨30, "pa", [], 1, some sampleSnapshot⟩

/-- Pattern of clip 2 for the C5 scenario: no captured parameters, no
notes. -/
def c5PatternB : Pattern := ⟨40, "pb", [], 1, none⟩

def c5ClipA : TimelineClip := ⟨1, 30, 0, 0⟩

def c5ClipB : TimelineClip := ⟨2, 40, 0, 1⟩

def c5Env : TEnv :=
  { isLooping := true, bpm := 120, patterns := [c5PatternA, c5PatternB],
    timeline := [c5ClipA, c5ClipB], loopDurationMs := 100000 }

/-- State before the tick: clip 2 is already tracked and owns the parameter
context; clip 1 has not been seen yet. -/
def c5Ps : PlaybackState :=
  { timelineNotes := [], lastTime := 0, activeClips := [(2, [])],
    currentParametersClipId := some 2, activeClipsWithParams := [2],
    scheduledNotes := [] }

/-- Counterexample to claim C5: clip 1 is first seen while clip 2 currently
owns the parameter context, yet the tick applies clip 1's captured parameters
and records clip 1 as the new owner — the code's guard is only
`currentParametersClipId !== clip.id`, not "no clip owns the context". The
claim says the newly activated clip's parameters are not applied. -/
theorem C5_cex :
    c5Ps.currentParametersClipId = some 2 ∧
    (tick c5Env 5 c5Ps).2.1 = [TCall.applyParams sampleSnapshot] ∧
    (tick c5Env 5 c5Ps).1.currentParametersClipId = some 1 := by
  refine ⟨rfl, ?_⟩
  norm_num [tick, c5Env, c5Ps, c5PatternA, c5PatternB, c5ClipA, c5ClipB, processClip,
    dispatchNote, deactivateClip, applyParamsStep, loopResetTriggered, effectiveElapsed,
    jsMod, lookupClip, addClipPitch, removeClipPitch, removeClipEntry, loopResetSweep,
    TEnv.beatDuration, List.insert, List.erase, List.find?, reduceCtorEq]
  simp

/-- Claim C5 amended: on first-seen activation the pattern's captured
parameters are applied and ownership recorded whenever the pattern carries
them and this clip is not already the owner itself — another clip's current
ownership does not block the application, it is overwritten; without captured
parameters nothing is applied. -/
theorem C5_param_context (clipId : Nat) (pattern : Pattern) (ps : PlaybackState)
    (cfg : SynthSnapshot)
    (hcap : pattern.capturedParameters = some cfg) :
    (ps.currentParametersClipId ≠ some clipId →
      applyParamsStep clipId pattern ps =
        ({ ps with currentParametersClipId := some clipId,
                   activeClipsWithParams := ps.activeClipsWithParams.insert clipId },
         [TCall.applyParams cfg])) ∧
    (ps.currentParametersClipId = some clipId → applyParamsStep clipId pattern ps = (ps, [])) ∧
    (∀ other : Nat, ps.currentParametersClipId = some other → other ≠ clipId →
      (applyParamsStep clipId pattern ps).2 = [TCall.applyParams cfg] ∧
      (applyParamsStep clipId pattern ps).1.currentParametersClipId = some clipId) ∧
    (∀ pat2 : Pattern, pat2.capturedParameters = none →
      applyParamsStep clipId pat2 ps = (ps, [])) := by
  refine ⟨?_, ?_, ?_, ?_⟩
  · intro hne
    simp [applyParamsStep, hcap, hne]
  · intro heq
    simp [applyParamsStep, hcap, heq]
  · intro other hown hne
    have hne2 : ps.currentParametersClipId ≠ some clipId := by
      rw [hown]
      intro hc
      exact hne (Option.some.injEq _ _ ▸ hc)
    constructor <;> simp [applyParamsStep, hcap, hne2]
  · intro pat2 hnone
    simp [applyParamsStep, hnone]

theorem C5_witness :
    (applyParamsStep 1 c5PatternA c5Ps).2 = [TCall.applyParams sampleSnapshot] ∧
    (applyParamsStep 1 c5PatternA c5Ps).1.currentParametersClipId = some 1 :=
  (C5_param_context 1 c5PatternA c5Ps sampleSnapshot rfl).2.2.1 2 rfl (by decide)

end Webchord
